import Mathlib

/-!
Shallow embedding of the sonr event-driven networking core
(repository hagsteel/deprecated-thing), covering:

* the Reaction protocol and the Chain combinator (src/src/reactor/combinators.rs),
* the per-event dispatch of the System event loop (src/src/system.rs),
* the TCP listener and Stream reactors (src/src/net/tcp.rs, src/src/net/stream.rs),
* the PreVec slot vector (src/src/prevec.rs),
* the signal channel and broadcaster (src/src/sync/signal.rs, src/src/sync/broadcast.rs).

Rust Reactor values carry mutable state; a reactor is embedded as a pure
function from a state and an input Reaction to an output Reaction and a new
state.  Loops in the source that are not structurally terminating are given
an explicit fuel argument and return none when fuel runs out.  Rust panics
(out-of-bounds slot access, insertion into an occupied slot) are modelled as
a distinct error value so that they can never be confused with the NoCapacity
error the code returns deliberately.
-/

namespace Sonr

/-- Decidable equality for Except, needed to evaluate the fallible PreVec and
channel operations on concrete inputs. -/
instance {ε α : Type} [DecidableEq ε] [DecidableEq α] : DecidableEq (Except ε α) := fun a b =>
  match a, b with
  | .error x, .error y =>
    if h : x = y then isTrue (by rw [h]) else isFalse (fun hc => h (by injection hc))
  | .ok x, .ok y =>
    if h : x = y then isTrue (by rw [h]) else isFalse (fun hc => h (by injection hc))
  | .error _, .ok _ => isFalse (fun hc => Except.noConfusion hc)
  | .ok _, .error _ => isFalse (fun hc => Except.noConfusion hc)

/-- The Reaction enum from src/src/reactor/mod.rs.  The mio event type is kept
abstract as a type parameter E. -/
inductive Reaction (E : Type) (T : Type) where
  | Continue : Reaction E T
  | Event : E → Reaction E T
  | Value : T → Reaction E T
deriving DecidableEq

/-- A mio readiness event: its token and its readable / writable flags.  This is
the part of mio::Event the embedded code inspects. -/
structure MioEvent where
  token : Nat
  readable : Bool
  writable : Bool
deriving DecidableEq

/-- True exactly on Reaction.Value. -/
def IsValue : Reaction E T → Bool
  | .Value _ => true
  | _ => false

/-- True exactly on Reaction.Continue. -/
def IsContinue : Reaction E T → Bool
  | .Continue => true
  | _ => false

/-- The system control command enum from src/src/system.rs (only Stop exists). -/
inductive SystemEvent where
  | Stop : SystemEvent
deriving DecidableEq

/-- The token-0 branch of System::start (src/src/system.rs lines 152-165): the
code performs a single try_recv on the control channel (an if-let, not a
loop), so at most one queued command is consumed; the outer loop is broken
when that command matches SystemEvent::Stop.  The control channel is modelled
as the list of queued commands; the Bool result is the break flag. -/
def systemControlStep : List SystemEvent → List SystemEvent × Bool
  | [] => ([], false)
  | c :: rest => (rest, match c with | .Stop => true)

/-- Modelled from the spec claim for comparison: drain the whole control
channel and break when a Stop is among the consumed commands. -/
def claimControlStep (queue : List SystemEvent) : List SystemEvent × Bool :=
  ([], queue.any fun c => match c with | .Stop => true)

/-- The drain loop of System::start (src/src/system.rs line 170): while the
reactor answers Reaction.Value to Reaction.Continue, keep calling it.  The
loop exits at the first non-Value answer.  Fuel bounds the iteration count;
none means the source loop would still be running. -/
def systemDrain (react : σ → Reaction E I → Reaction E O × σ) : Nat → σ → Option σ
  | 0, _ => none
  | fuel + 1, s =>
    match react s .Continue with
    | (.Value _, s1) => systemDrain react fuel s1
    | (_, s1) => some s1

/-- The non-system-token branch of System::start (src/src/system.rs lines
166-172): react to the event once; if the answer is Value, run the drain
loop. -/
def systemHandleEvent (react : σ → Reaction E I → Reaction E O × σ)
    (fuel : Nat) (s : σ) (e : E) : Option σ :=
  match react s (.Event e) with
  | (.Value _, s1) => systemDrain react fuel s1
  | (_, s1) => some s1

/-- Modelled from the spec claim for comparison: keep calling react with
Continue until the answer is Continue (stopping only on Continue, not on the
first non-Value answer). -/
def claimDrain (react : σ → Reaction E I → Reaction E O × σ) : Nat → σ → Option σ
  | 0, _ => none
  | fuel + 1, s =>
    match react s .Continue with
    | (.Continue, s1) => some s1
    | (_, s1) => claimDrain react fuel s1

/-- Modelled from the spec claim for comparison: the event branch with the
until-Continue drain loop. -/
def claimHandleEvent (react : σ → Reaction E I → Reaction E O × σ)
    (fuel : Nat) (s : σ) (e : E) : Option σ :=
  match react s (.Event e) with
  | (.Value _, s1) => claimDrain react fuel s1
  | (_, s1) => some s1

/-- One iteration of the for-loop over polled events in System::start
(src/src/system.rs lines 151-173): token 0 goes to the control branch (the
reactor is not called, the Bool is the break flag), any other token goes to
the reactor. -/
def systemProcessEvent (react : σ → Reaction MioEvent I → Reaction MioEvent O × σ)
    (fuel : Nat) (queue : List SystemEvent) (s : σ) (e : MioEvent) :
    Option (σ × List SystemEvent × Bool) :=
  if e.token = 0 then
    some (s, (systemControlStep queue).1, (systemControlStep queue).2)
  else
    match systemHandleEvent react fuel s e with
    | some s1 => some (s1, queue, false)
    | none => none

/-- Iterated calls of react with Reaction.Continue: index n holds the answer
and state after the call number n+1. -/
def contSteps (react : σ → Reaction E I → Reaction E O × σ) (s : σ) :
    Nat → Reaction E O × σ
  | 0 => react s .Continue
  | n + 1 => react (contSteps react s n).2 .Continue

-- -----------------------------------------------------------------------------
-- Chain combinator (src/src/reactor/combinators.rs lines 42-58)
-- -----------------------------------------------------------------------------

/-- The drive loop inside Chain::react (src/src/reactor/combinators.rs lines
44-57).  r1 is the current reaction of the from-reactor.  On Event the loop
breaks with the to-reactor's answer to that event; on Value the value is fed
to the to-reactor (its answer discarded) and the from-reactor is polled with
Continue; on Continue the to-reactor is polled with Continue and the loop
only breaks once that poll answers Continue. -/
def chainLoop (fF : σF → Reaction E I → Reaction E A × σF)
    (fT : σT → Reaction E A → Reaction E O × σT) :
    Nat → Reaction E A → σF → σT → Option (Reaction E O × σF × σT)
  | 0, _, _, _ => none
  | fuel + 1, r1, sF, sT =>
    match r1 with
    | .Event e =>
      match fT sT (.Event e) with
      | (r2, sT1) => some (r2, sF, sT1)
    | .Value v =>
      match fT sT (.Value v) with
      | (_, sT1) =>
        match fF sF .Continue with
        | (r1n, sF1) => chainLoop fF fT fuel r1n sF1 sT1
    | .Continue =>
      match fT sT .Continue with
      | (.Continue, sT1) => some (.Continue, sF, sT1)
      | (_, sT1) => chainLoop fF fT fuel .Continue sF sT1

/-- Chain::react (src/src/reactor/combinators.rs lines 42-58): react the
from-reactor on the incoming reaction, then run the drive loop. -/
def chainReact (fF : σF → Reaction E I → Reaction E A × σF)
    (fT : σT → Reaction E A → Reaction E O × σT)
    (fuel : Nat) (sF : σF) (sT : σT) (input : Reaction E I) :
    Option (Reaction E O × σF × σT) :=
  match fF sF input with
  | (r1, sF1) => chainLoop fF fT fuel r1 sF1 sT

/-- Modelled from the spec claim for comparison: identical to chainLoop except
in the Continue branch, which calls the to-reactor with Continue once and
returns that call's answer (Continue stays Continue, any other result is
propagated). -/
def claimChainLoop (fF : σF → Reaction E I → Reaction E A × σF)
    (fT : σT → Reaction E A → Reaction E O × σT) :
    Nat → Reaction E A → σF → σT → Option (Reaction E O × σF × σT)
  | 0, _, _, _ => none
  | fuel + 1, r1, sF, sT =>
    match r1 with
    | .Event e =>
      match fT sT (.Event e) with
      | (r2, sT1) => some (r2, sF, sT1)
    | .Value v =>
      match fT sT (.Value v) with
      | (_, sT1) =>
        match fF sF .Continue with
        | (r1n, sF1) => claimChainLoop fF fT fuel r1n sF1 sT1
    | .Continue =>
      match fT sT .Continue with
      | (r2, sT1) => some (r2, sF, sT1)

/-- Modelled from the spec claim for comparison: Chain::react with the
claim's Continue branch. -/
def claimChainReact (fF : σF → Reaction E I → Reaction E A × σF)
    (fT : σT → Reaction E A → Reaction E O × σT)
    (fuel : Nat) (sF : σF) (sT : σT) (input : Reaction E I) :
    Option (Reaction E O × σF × σT) :=
  match fF sF input with
  | (r1, sF1) => claimChainLoop fF fT fuel r1 sF1 sT

-- -----------------------------------------------------------------------------
-- TCP listener reactor (src/src/net/tcp.rs lines 77-115)
-- -----------------------------------------------------------------------------

/-- Outcome of one call to accept on the OS listener: a new stream with its
peer address, a would-block error, or any other I/O error. -/
inductive AcceptResult (S A : Type) where
  | ok : S → A → AcceptResult S A
  | wouldBlock : AcceptResult S A
  | otherErr : AcceptResult S A

/-- ReactiveTcpListener::react (src/src/net/tcp.rs lines 81-114).  The accept
outcome is supplied as an oracle (react performs at most one accept call per
invocation).  The Bool records whether the listener reregistered itself with
the System (done exactly on would-block).  On Event with the listener's own
token and on Continue the listener accepts; an Event with a foreign token is
passed through unchanged; a Value input falls to the final match and becomes
Continue. -/
def tcpListenerReact (token : Nat) (accept : AcceptResult S A)
    (reaction : Reaction MioEvent Unit) : Reaction MioEvent (S × A) × Bool :=
  match reaction with
  | .Event e =>
    if token = e.token then
      match accept with
      | .ok s a => (.Value (s, a), false)
      | .wouldBlock => (.Continue, true)
      | .otherErr => (.Continue, false)
    else
      (.Event e, false)
  | .Continue =>
    match accept with
    | .ok s a => (.Value (s, a), false)
    | .wouldBlock => (.Continue, true)
    | .otherErr => (.Continue, false)
  | .Value _ => (.Continue, false)

-- -----------------------------------------------------------------------------
-- Stream reactor (src/src/net/stream.rs lines 171-189)
-- -----------------------------------------------------------------------------

/-- The part of a Stream's EventedReactor that Stream::react touches: the
registered token and the two readiness latches. -/
structure StreamState where
  token : Nat
  is_readable : Bool
  is_writable : Bool
deriving DecidableEq

/-- Stream::react (src/src/net/stream.rs lines 175-188): an Event with a
foreign token is returned unchanged; an Event with the stream's token ORs the
event's readable and writable flags into the latches and answers Value(());
every non-Event input (Continue as well as Value) is returned unchanged. -/
def streamReact (s : StreamState) (reaction : Reaction MioEvent Unit) :
    Reaction MioEvent Unit × StreamState :=
  match reaction with
  | .Event e =>
    if e.token ≠ s.token then
      (.Event e, s)
    else
      (.Value (), { s with is_readable := s.is_readable || e.readable,
                           is_writable := s.is_writable || e.writable })
  | r => (r, s)

-- -----------------------------------------------------------------------------
-- PreVec slot vector (src/src/prevec.rs)
-- -----------------------------------------------------------------------------

/-- A slot of the PreVec backing vector (src/src/prevec.rs lines 6-10): either
empty with a free-list pointer, or occupied by a value. -/
inductive Entry (T : Type) where
  | empty : Nat → Entry T
  | occupied : T → Entry T
deriving DecidableEq

/-- The PreVec record (src/src/prevec.rs lines 50-58). -/
structure PreVec (T : Type) where
  inner : List (Entry T)
  capacity : Nat
  next : Nat
  offset : Nat
  length : Nat
  can_grow : Bool
deriving DecidableEq

/-- Errors of the fallible PreVec operations.  noCapacity is the
Error::NoCapacity value the code returns; panicked stands for a Rust panic
(out-of-bounds or underflowing slot access, insertion into an occupied slot)
and is kept distinct so a panic is never mistaken for an error return. -/
inductive PError where
  | noCapacity : PError
  | panicked : PError
deriving DecidableEq

/-- PreVec::with_capacity (src/src/prevec.rs lines 78-87): the backing vector
starts empty, growth is enabled. -/
def PreVec.with_capacity (T : Type) (cap : Nat) : PreVec T :=
  { inner := [], capacity := cap, next := 0, offset := 0, length := 0, can_grow := true }

/-- PreVec::set_offset (src/src/prevec.rs lines 134-136). -/
def PreVec.set_offset (pv : PreVec T) (newOffset : Nat) : PreVec T :=
  { pv with offset := newOffset }

/-- PreVec::with_capacity_and_offset (src/src/prevec.rs lines 101-105). -/
def PreVec.with_capacity_and_offset (T : Type) (cap off : Nat) : PreVec T :=
  (PreVec.with_capacity T cap).set_offset off

/-- PreVec::prevent_growth (src/src/prevec.rs lines 118-120). -/
def PreVec.prevent_growth (pv : PreVec T) : PreVec T :=
  { pv with can_grow := false }

/-- PreVec::enable_growth (src/src/prevec.rs lines 123-125). -/
def PreVec.enable_growth (pv : PreVec T) : PreVec T :=
  { pv with can_grow := true }

/-- The list of fresh empty entries the growth code appends: positions lo,
lo+1, ... each holding the free-list pointer position+1; the second argument
is the number of entries.  This is the iterator (len..cap).map(Empty(i+1))
from src/src/prevec.rs lines 186-188 and 192-194. -/
def mkEmpties (T : Type) (lo : Nat) : Nat → List (Entry T)
  | 0 => []
  | n + 1 => Entry.empty (lo + 1) :: mkEmpties T (lo + 1) n

/-- PreVec::grow_if_required (src/src/prevec.rs lines 173-200): nothing to do
when the index is inside the backing vector; a NoCapacity error when the
index is at or beyond capacity and growth is prevented; otherwise fill up to
capacity, or double the capacity first when the index is beyond it. -/
def PreVec.grow_if_required (pv : PreVec T) (index : Nat) : Except PError (PreVec T) :=
  if pv.inner.length ≤ index then
    if pv.capacity ≤ index ∧ pv.can_grow = false then
      .error .noCapacity
    else
      let len := pv.inner.length
      if index < pv.capacity then
        .ok { pv with inner := pv.inner ++ mkEmpties T len (pv.capacity - len) }
      else
        .ok { pv with capacity := pv.capacity * 2,
                      inner := pv.inner ++ mkEmpties T len (pv.capacity * 2 - len) }
  else
    .ok pv

/-- PreVec::insert (src/src/prevec.rs lines 213-227): take the head of the
free list, grow if required, replace that slot (which the free-list invariant
promises is empty; an occupied slot is the panic at line 224), bump the
length, advance the free list, and answer the slot position plus the
offset. -/
def PreVec.insert (pv : PreVec T) (v : T) : Except PError (PreVec T × Nat) :=
  let index := pv.next
  match pv.grow_if_required index with
  | .error e => .error e
  | .ok pv1 =>
    match pv1.inner.get? index with
    | some (.empty nxt) =>
      .ok ({ pv1 with inner := pv1.inner.set index (.occupied v),
                      length := pv1.length + 1,
                      next := nxt }, index + pv1.offset)
    | some (.occupied _) => .error .panicked
    | none => .error .panicked

/-- PreVec::remove (src/src/prevec.rs lines 230-248): indexing below the
offset or beyond the backing vector is a panic; an empty slot answers none
and leaves the state unchanged; an occupied slot is emptied, prepended to the
free list, and its value answered. -/
def PreVec.remove (pv : PreVec T) (index : Nat) : Except PError (Option T × PreVec T) :=
  if index < pv.offset then
    .error .panicked
  else
    match pv.inner.get? (index - pv.offset) with
    | none => .error .panicked
    | some (.empty _) => .ok (none, pv)
    | some (.occupied v) =>
      .ok (some v, { pv with inner := pv.inner.set (index - pv.offset) (Entry.empty pv.next),
                             next := index - pv.offset,
                             length := pv.length - 1 })

/-- PreVec::get (src/src/prevec.rs lines 148-153): some exactly on an occupied
slot.  An index below the offset (a debug-build underflow panic in Rust) is
modelled as none; no claim depends on that corner. -/
def PreVec.get (pv : PreVec T) (index : Nat) : Option T :=
  if index < pv.offset then
    none
  else
    match pv.inner.get? (index - pv.offset) with
    | some (.occupied v) => some v
    | _ => none

/-- PreVec::get_mut (src/src/prevec.rs lines 166-171) reads exactly like get;
the mutable borrow it hands out is modelled by modifyAt below. -/
def PreVec.get_mut (pv : PreVec T) (index : Nat) : Option T :=
  PreVec.get pv index

/-- Writing through the reference PreVec::get_mut returns: replace the value
of the occupied slot at the index, touching nothing else.  A free slot or an
out-of-range index gives no reference, so nothing changes. -/
def PreVec.modifyAt (pv : PreVec T) (index : Nat) (f : T → T) : PreVec T :=
  if index < pv.offset then
    pv
  else
    match pv.inner.get? (index - pv.offset) with
    | some (.occupied v) =>
      { pv with inner := pv.inner.set (index - pv.offset) (.occupied (f v)) }
    | _ => pv

/-- PreVec::len (src/src/prevec.rs lines 251-253). -/
def PreVec.len (pv : PreVec T) : Nat :=
  pv.length

/-- PreVec::clear (src/src/prevec.rs lines 261-265). -/
def PreVec.clear (pv : PreVec T) : PreVec T :=
  { pv with inner := mkEmpties T 0 pv.capacity, next := 0, length := 0 }

/-- Number of occupied slots of a backing vector. -/
def countOccupied : List (Entry T) → Nat
  | [] => 0
  | .occupied _ :: rest => countOccupied rest + 1
  | .empty _ :: rest => countOccupied rest

/-- PreVec states reachable through the public operations, starting from the
constructors. -/
inductive PreVec.Reachable : PreVec T → Prop where
  | with_capacity (cap : Nat) : PreVec.Reachable (PreVec.with_capacity T cap)
  | set_offset {pv : PreVec T} (off : Nat) :
      PreVec.Reachable pv → PreVec.Reachable (pv.set_offset off)
  | prevent_growth {pv : PreVec T} :
      PreVec.Reachable pv → PreVec.Reachable pv.prevent_growth
  | enable_growth {pv : PreVec T} :
      PreVec.Reachable pv → PreVec.Reachable pv.enable_growth
  | insert {pv pv' : PreVec T} {v : T} {i : Nat} :
      PreVec.Reachable pv → pv.insert v = .ok (pv', i) → PreVec.Reachable pv'
  | remove {pv pv' : PreVec T} {r : Option T} {i : Nat} :
      PreVec.Reachable pv → pv.remove i = .ok (r, pv') → PreVec.Reachable pv'
  | modifyAt {pv : PreVec T} (i : Nat) (f : T → T) :
      PreVec.Reachable pv → PreVec.Reachable (pv.modifyAt i f)
  | clear {pv : PreVec T} :
      PreVec.Reachable pv → PreVec.Reachable pv.clear

-- -----------------------------------------------------------------------------
-- Signal channel (src/src/sync/signal.rs) and broadcaster (src/src/sync/broadcast.rs)
-- -----------------------------------------------------------------------------

/-- One signal channel as seen through a paired SignalSender / SignalReceiver:
the readiness flag of the receiver's mio Registration, whether the receiving
side of the crossbeam channel is still alive, and the queued values. -/
structure SignalChannel (T : Type) where
  ready : Bool
  connected : Bool
  queue : List T
deriving DecidableEq

/-- The error of a failed channel send (crossbeam SendError: the channel is
disconnected). -/
inductive SendError where
  | disconnected : SendError
deriving DecidableEq

/-- The error of a failed try_recv (crossbeam TryRecvError). -/
inductive TryRecvError where
  | Empty : TryRecvError
  | Disconnected : TryRecvError
deriving DecidableEq

/-- SignalSender::send (src/src/sync/signal.rs lines 30-34): first set the
receiver registration readable (the result of set_readiness is discarded),
then enqueue on the crossbeam channel, which fails exactly when the channel
is disconnected. -/
def SignalSender.send (ch : SignalChannel T) (val : T) :
    Except SendError Unit × SignalChannel T :=
  let ch1 := { ch with ready := true }
  if ch1.connected then
    (.ok (), { ch1 with queue := ch1.queue ++ [val] })
  else
    (.error .disconnected, ch1)

/-- SignalReceiver::try_recv (src/src/sync/signal.rs lines 106-109): pop one
queued value; an empty queue fails with Empty while connected and with
Disconnected otherwise. -/
def SignalReceiver.try_recv (ch : SignalChannel T) :
    Except TryRecvError (T × SignalChannel T) :=
  match ch.queue with
  | [] => .error (if ch.connected then .Empty else .Disconnected)
  | v :: rest => .ok (v, { ch with queue := rest })

/-- Broadcast::publish (src/src/sync/broadcast.rs lines 57-63): iterate over
the subscriber list and send a clone of the value to each one, discarding
each send's result.  Clone is passed in as a function. -/
def Broadcast.publish (clone : T → T) (subs : List (SignalChannel T)) (val : T) :
    List (SignalChannel T) :=
  subs.map fun sub => (SignalSender.send sub (clone val)).2

-- -----------------------------------------------------------------------------
-- Concrete instances used by counterexamples and witnesses
-- -----------------------------------------------------------------------------

/-- A root reactor that answers Value to an Event and then Event to every
Continue poll; its state counts the react calls made. -/
def cexReactC1 : Nat → Reaction MioEvent Unit → Reaction MioEvent Nat × Nat
  | n, .Event _ => (.Value 0, n + 1)
  | n, _ => (.Event ⟨7, false, false⟩, n + 1)

/-- A root reactor that answers Value to an Event, then Value to the first
Continue poll and Continue afterwards; its state counts the react calls. -/
def wReactC1 : Nat → Reaction MioEvent Unit → Reaction MioEvent Nat × Nat
  | n, .Event _ => (.Value 0, n + 1)
  | n, .Continue => if n < 2 then (.Value n, n + 1) else (.Continue, n + 1)
  | n, .Value _ => (.Continue, n + 1)

/-- A from-reactor that always answers Continue. -/
def cexChainF : Unit → Reaction Nat Unit → Reaction Nat Nat × Unit :=
  fun s _ => (.Continue, s)

/-- A to-reactor that answers Value 7 to the first Continue it sees and
Continue afterwards; its state counts the Continue polls. -/
def cexChainT : Nat → Reaction Nat Nat → Reaction Nat Nat × Nat
  | 0, .Continue => (.Value 7, 1)
  | n, .Continue => (.Continue, n + 1)
  | n, _ => (.Continue, n)

/-- A root reactor with no behaviour, for exercising the token-0 branch. -/
def unitReact : Unit → Reaction MioEvent Unit → Reaction MioEvent Unit × Unit :=
  fun s _ => (.Continue, s)

/-- A two-slot PreVec holding 10 and 20 with its free list exhausted. -/
def pvC6 : PreVec Nat := ⟨[.occupied 10, .occupied 20], 2, 2, 0, 2, true⟩

/-- pvC6 after removing index 1. -/
def pvC6r : PreVec Nat := ⟨[.occupied 10, .empty 2], 2, 1, 0, 1, true⟩

/-- A full one-slot PreVec with growth prevented. -/
def pvC7a : PreVec Nat := ⟨[.occupied 10], 1, 1, 0, 1, false⟩

/-- A full one-slot PreVec with growth enabled. -/
def pvC7b : PreVec Nat := ⟨[.occupied 10], 1, 1, 0, 1, true⟩

/-- The result of inserting 5 into an empty PreVec of capacity 2. -/
def pvW1 : PreVec Nat := ⟨[.occupied 5, .empty 2], 2, 1, 0, 1, true⟩

/-- pvW1 after removing index 0. -/
def pvW2 : PreVec Nat := ⟨[.empty 1, .empty 2], 2, 0, 0, 0, true⟩

/-- Three broadcast subscribers; the middle one is disconnected. -/
def subsW : List (SignalChannel Nat) := [⟨false, true, []⟩, ⟨false, false, []⟩, ⟨false, true, [1]⟩]

/-- A disconnected, empty signal channel with readiness still unset. -/
def chW : SignalChannel Nat := ⟨false, false, []⟩

-- -----------------------------------------------------------------------------
-- Helper lemmas
-- -----------------------------------------------------------------------------

lemma get?_set_self (l : List α) (i : Nat) (a : α) (h : i < l.length) :
    (l.set i a).get? i = some a := by
  induction l generalizing i with
  | nil => simp at h
  | cons x xs ih =>
    cases i with
    | zero => rfl
    | succ n => simpa using ih n (by simpa using h)

lemma get?_some_lt (l : List α) (i : Nat) (a : α) (h : l.get? i = some a) :
    i < l.length := by
  induction l generalizing i with
  | nil => simp [List.get?] at h
  | cons x xs ih =>
    cases i with
    | zero => simp
    | succ n => simpa using ih n (by simpa using h)

lemma get?_append_right' (l1 l2 : List α) (i : Nat) (h : l1.length ≤ i) :
    (l1 ++ l2).get? i = l2.get? (i - l1.length) := by
  induction l1 generalizing i with
  | nil => simp
  | cons x xs ih =>
    cases i with
    | zero => simp at h
    | succ n => simpa using ih n (by simpa using h)

lemma mkEmpties_get? (n : Nat) : ∀ (lo j : Nat), j < n →
    (mkEmpties T lo n).get? j = some (.empty (lo + j + 1)) := by
  induction n with
  | zero => intro lo j h; omega
  | succ n ih =>
    intro lo j h
    cases j with
    | zero => rfl
    | succ m =>
      have := ih (lo + 1) m (by omega)
      simpa [mkEmpties, Nat.add_assoc, Nat.add_comm, Nat.add_left_comm] using this

lemma countOccupied_append (l1 l2 : List (Entry T)) :
    countOccupied (l1 ++ l2) = countOccupied l1 + countOccupied l2 := by
  induction l1 with
  | nil => simp [countOccupied]
  | cons x xs ih =>
    cases x with
    | empty m => simpa [countOccupied] using ih
    | occupied v => simp [countOccupied, ih]; omega

lemma countOccupied_mkEmpties (n : Nat) : ∀ lo, countOccupied (mkEmpties T lo n) = 0 := by
  induction n with
  | zero => intro lo; rfl
  | succ n ih => intro lo; simpa [mkEmpties, countOccupied] using ih (lo + 1)

lemma countOccupied_set_occupied (l : List (Entry T)) (i m : Nat) (v : T)
    (h : l.get? i = some (.empty m)) :
    countOccupied (l.set i (.occupied v)) = countOccupied l + 1 := by
  induction l generalizing i with
  | nil => simp [List.get?] at h
  | cons x xs ih =>
    cases i with
    | zero =>
      have hx : x = Entry.empty m := by simpa using h
      subst hx
      simp [countOccupied]
    | succ n =>
      have := ih n (by simpa using h)
      cases x with
      | empty k => simpa [countOccupied] using this
      | occupied w => simp [countOccupied, this]

lemma countOccupied_set_empty (l : List (Entry T)) (i m : Nat) (w : T)
    (h : l.get? i = some (.occupied w)) :
    countOccupied l = countOccupied (l.set i (.empty m)) + 1 := by
  induction l generalizing i with
  | nil => simp [List.get?] at h
  | cons x xs ih =>
    cases i with
    | zero =>
      have hx : x = Entry.occupied w := by simpa using h
      subst hx
      simp [countOccupied]
    | succ n =>
      have := ih n (by simpa using h)
      cases x with
      | empty k => simpa [countOccupied] using this
      | occupied u => simp [countOccupied, this]

lemma countOccupied_set_occ_occ (l : List (Entry T)) (i : Nat) (w v : T)
    (h : l.get? i = some (.occupied w)) :
    countOccupied (l.set i (.occupied v)) = countOccupied l := by
  induction l generalizing i with
  | nil => simp [List.get?] at h
  | cons x xs ih =>
    cases i with
    | zero =>
      have hx : x = Entry.occupied w := by simpa using h
      subst hx
      simp [countOccupied]
    | succ n =>
      have := ih n (by simpa using h)
      cases x with
      | empty k => simpa [countOccupied] using this
      | occupied u => simp [countOccupied, this]

lemma grow_if_required_ok (pv : PreVec T) (idx : Nat) (pv1 : PreVec T)
    (h : pv.grow_if_required idx = .ok pv1) :
    countOccupied pv1.inner = countOccupied pv.inner
      ∧ pv1.length = pv.length ∧ pv1.next = pv.next ∧ pv1.offset = pv.offset := by
  unfold PreVec.grow_if_required at h
  split at h
  · split at h
    · exact absurd h (by simp)
    · split at h
      · injection h with h1
        subst h1
        simp [countOccupied_append, countOccupied_mkEmpties]
      · injection h with h1
        subst h1
        simp [countOccupied_append, countOccupied_mkEmpties]
  · injection h with h1
    subst h1
    simp

lemma contSteps_shift (react : σ → Reaction E I → Reaction E O × σ) (s : σ) :
    ∀ n : Nat, contSteps react s (n + 1) = contSteps react (react s .Continue).2 n := by
  intro n
  induction n with
  | zero => rfl
  | succ n ih =>
    show react (contSteps react s (n + 1)).2 .Continue = _
    rw [ih]
    rfl

lemma systemDrain_stops (react : σ → Reaction E I → Reaction E O × σ) :
    ∀ (k fuel : Nat) (s : σ), k < fuel →
      (∀ i, i < k → IsValue (contSteps react s i).1 = true) →
      IsValue (contSteps react s k).1 = false →
      systemDrain react fuel s = some (contSteps react s k).2 := by
  intro k
  induction k with
  | zero =>
    intro fuel s hk hvals hstop
    cases fuel with
    | zero => omega
    | succ f =>
      have h0 : contSteps react s 0 = react s .Continue := rfl
      rcases hr : react s .Continue with ⟨r, s1⟩
      rw [h0, hr] at hstop ⊢
      cases r with
      | Value w => simp [IsValue] at hstop
      | Continue => simp [systemDrain, hr]
      | Event e => simp [systemDrain, hr]
  | succ k ih =>
    intro fuel s hk hvals hstop
    cases fuel with
    | zero => omega
    | succ f =>
      have h0 := hvals 0 (by omega)
      rcases hr : react s .Continue with ⟨r, s1⟩
      have h0' : IsValue r = true := by
        rw [show contSteps react s 0 = react s .Continue from rfl, hr] at h0
        exact h0
      have hshift : ∀ m, contSteps react s1 m = contSteps react s (m + 1) := by
        intro m
        rw [contSteps_shift react s m, hr]
      cases r with
      | Continue => simp [IsValue] at h0'
      | Event e => simp [IsValue] at h0'
      | Value w =>
        have hstep : systemDrain react (f + 1) s = systemDrain react f s1 := by
          simp [systemDrain, hr]
        rw [hstep, show contSteps react s (k + 1) = contSteps react s1 k from (hshift k).symm]
        refine ih f s1 (by omega) ?_ ?_
        · intro i hi
          rw [hshift i]
          exact hvals (i + 1) (by omega)
        · rw [hshift k]
          exact hstop

lemma chainLoop_drains_to (fF : σF → Reaction E I → Reaction E A × σF)
    (fT : σT → Reaction E A → Reaction E O × σT) :
    ∀ (k fuel : Nat) (sF : σF) (sT : σT), k < fuel →
      (∀ i, i < k → IsContinue (contSteps fT sT i).1 = false) →
      IsContinue (contSteps fT sT k).1 = true →
      chainLoop fF fT fuel .Continue sF sT = some (.Continue, sF, (contSteps fT sT k).2) := by
  intro k
  induction k with
  | zero =>
    intro fuel sF sT hk hnc hc
    cases fuel with
    | zero => omega
    | succ f =>
      have h0 : contSteps fT sT 0 = fT sT .Continue := rfl
      rcases hr : fT sT .Continue with ⟨r, sT1⟩
      rw [h0, hr] at hc ⊢
      cases r with
      | Continue => simp [chainLoop, hr]
      | Value w => simp [IsContinue] at hc
      | Event e => simp [IsContinue] at hc
  | succ k ih =>
    intro fuel sF sT hk hnc hc
    cases fuel with
    | zero => omega
    | succ f =>
      have h0 := hnc 0 (by omega)
      rcases hr : fT sT .Continue with ⟨r, sT1⟩
      have h0' : IsContinue r = false := by
        rw [show contSteps fT sT 0 = fT sT .Continue from rfl, hr] at h0
        exact h0
      have hshift : ∀ m, contSteps fT sT1 m = contSteps fT sT (m + 1) := by
        intro m
        rw [contSteps_shift fT sT m, hr]
      cases r with
      | Continue => simp [IsContinue] at h0'
      | Value w =>
        have hstep : chainLoop fF fT (f + 1) .Continue sF sT
            = chainLoop fF fT f .Continue sF sT1 := by
          simp [chainLoop, hr]
        rw [hstep, show contSteps fT sT (k + 1) = contSteps fT sT1 k from (hshift k).symm]
        refine ih f sF sT1 (by omega) ?_ ?_
        · intro i hi
          rw [hshift i]
          exact hnc (i + 1) (by omega)
        · rw [hshift k]
          exact hc
      | Event e =>
        have hstep : chainLoop fF fT (f + 1) .Continue sF sT
            = chainLoop fF fT f .Continue sF sT1 := by
          simp [chainLoop, hr]
        rw [hstep, show contSteps fT sT (k + 1) = contSteps fT sT1 k from (hshift k).symm]
        refine ih f sF sT1 (by omega) ?_ ?_
        · intro i hi
          rw [hshift i]
          exact hnc (i + 1) (by omega)
        · rw [hshift k]
          exact hc

-- -----------------------------------------------------------------------------
-- Claim theorems
-- -----------------------------------------------------------------------------

/-- C1 (counterexample): the claim says the engine keeps calling
root.react(Continue) until the answer is Continue.  The code loops only while
the answer is Value: on a root reactor whose every Continue poll answers
Event, the engine stops after one poll (two react calls in total) while the
claim's loop never reaches Continue and runs out of any fuel. -/
theorem system_continue_loop_claim_counterexample :
    systemHandleEvent cexReactC1 10 0 ⟨5, true, false⟩ = some 2
    ∧ claimHandleEvent cexReactC1 10 0 ⟨5, true, false⟩ = none
    ∧ systemHandleEvent cexReactC1 10 0 ⟨5, true, false⟩
      ≠ claimHandleEvent cexReactC1 10 0 ⟨5, true, false⟩ := by
  exact ⟨by decide, by decide, by decide⟩

/-- C1 (amended): in System::start, for a polled event with a non-system
token whose first react answers Value, the engine calls react(Continue)
repeatedly while the answer is Value, and stops at the first non-Value answer
(Continue or Event) — call number k+1 when calls 1..k answered Value. -/
theorem system_continue_loop_stops_at_first_non_value
    (react : σ → Reaction MioEvent I → Reaction MioEvent O × σ)
    (fuel k : Nat) (q : List SystemEvent) (s s1 : σ) (e : MioEvent) (v : O)
    (htok : ¬ e.token = 0)
    (hev : react s (.Event e) = (.Value v, s1))
    (hk : k < fuel)
    (hvals : ∀ i, i < k → IsValue (contSteps react s1 i).1 = true)
    (hstop : IsValue (contSteps react s1 k).1 = false) :
    systemProcessEvent react fuel q s e = some ((contSteps react s1 k).2, q, false) := by
  have hdrain := systemDrain_stops react k fuel s1 hk hvals hstop
  simp [systemProcessEvent, htok, systemHandleEvent, hev, hdrain]

/-- C1 (witness): a reactor that answers Value to the event, Value to the
first Continue poll and Continue to the second; the engine makes exactly
three react calls and stops. -/
theorem system_continue_loop_witness :
    systemProcessEvent wReactC1 10 [] 0 ⟨5, true, false⟩ = some (3, [], false) := by
  have h := system_continue_loop_stops_at_first_non_value wReactC1 10 1 [] 0 1
    ⟨5, true, false⟩ 0 (by decide) rfl (by decide) (by decide) (by decide)
  exact h

/-- C2 (counterexample): the claim says that when F answers Continue, Chain
calls T.react(Continue) once and propagates its non-Continue result.  The
code instead discards the non-Continue result and polls T again: with T
answering Value 7 then Continue, Chain answers Continue after two T polls,
not Value 7. -/
theorem chain_continue_branch_counterexample :
    chainReact cexChainF cexChainT 10 () 0 .Continue = some (.Continue, (), 2)
    ∧ claimChainReact cexChainF cexChainT 10 () 0 .Continue = some (.Value 7, (), 1)
    ∧ chainReact cexChainF cexChainT 10 () 0 .Continue
      ≠ claimChainReact cexChainF cexChainT 10 () 0 .Continue := by
  exact ⟨by decide, by decide, by decide⟩

/-- C2 (amended): when the drive loop of Chain(F, T) obtains Continue from
F.react, it calls T.react(Continue) repeatedly, discarding every non-Continue
answer, until T answers Continue, and then Chain's react returns Continue
(T's non-Continue results are discarded, never propagated). -/
theorem chain_continue_branch_drains_target
    (fF : σF → Reaction E I → Reaction E A × σF)
    (fT : σT → Reaction E A → Reaction E O × σT)
    (fuel k : Nat) (sF sF' : σF) (sT : σT) (input : Reaction E I)
    (hF : fF sF input = (.Continue, sF'))
    (hk : k < fuel)
    (hnc : ∀ i, i < k → IsContinue (contSteps fT sT i).1 = false)
    (hc : IsContinue (contSteps fT sT k).1 = true) :
    chainReact fF fT fuel sF sT input = some (.Continue, sF', (contSteps fT sT k).2) := by
  simp only [chainReact, hF]
  exact chainLoop_drains_to fF fT k fuel sF' sT hk hnc hc

/-- C2 (witness): with F answering Continue and T answering Value 7 then
Continue, Chain makes two T polls and returns Continue. -/
theorem chain_continue_branch_witness :
    chainReact cexChainF cexChainT 10 () 0 .Continue = some (.Continue, (), 2) := by
  have h := chain_continue_branch_drains_target cexChainF cexChainT 10 1 () () 0
    .Continue rfl (by decide) (by decide) (by decide)
  exact h

/-- C3 (counterexample): the claim says a token-0 event drains every queued
SystemEvent.  The code performs a single try_recv: with two Stop commands
queued, one remains after the step, while the claim's drain leaves none. -/
theorem system_token_zero_drain_counterexample :
    systemControlStep [SystemEvent.Stop, SystemEvent.Stop] = ([SystemEvent.Stop], true)
    ∧ claimControlStep [SystemEvent.Stop, SystemEvent.Stop] = ([], true)
    ∧ systemControlStep [SystemEvent.Stop, SystemEvent.Stop]
      ≠ claimControlStep [SystemEvent.Stop, SystemEvent.Stop] := by
  exact ⟨by decide, by decide, by decide⟩

/-- C3 (amended): on a polled event with token 0 the engine does not call the
reactor; it consumes at most one queued SystemEvent command with a single
try_recv, and breaks the outer loop exactly when a command was present (the
only command being Stop). -/
theorem system_token_zero_single_recv
    (react : σ → Reaction MioEvent I → Reaction MioEvent O × σ)
    (fuel : Nat) (q : List SystemEvent) (s : σ) (e : MioEvent)
    (htok : e.token = 0) :
    systemProcessEvent react fuel q s e
      = some (s, (systemControlStep q).1, (systemControlStep q).2)
    ∧ systemControlStep ([] : List SystemEvent) = ([], false)
    ∧ ∀ c rest, systemControlStep (c :: rest) = (rest, true) := by
  refine ⟨by simp [systemProcessEvent, htok], rfl, ?_⟩
  intro c rest
  cases c
  rfl

/-- C3 (witness): a token-0 event with one queued Stop leaves the queue empty
and breaks the loop, without touching the reactor state. -/
theorem system_token_zero_witness :
    systemProcessEvent unitReact 1 [SystemEvent.Stop] () ⟨0, false, false⟩
      = some ((), [], true) := by
  have h := system_token_zero_single_recv unitReact 1 [SystemEvent.Stop] ()
    ⟨0, false, false⟩ rfl
  exact h.1

/-- C4: ReactiveTcpListener::react on an Event carrying its own token accepts
and answers Value((stream, peer_addr)) on success, reregisters and answers
Continue on would-block, and answers Continue without reregistering on any
other accept error; an Event with a different token is returned unchanged. -/
theorem tcp_listener_react_spec (tok : Nat) (e : MioEvent) (s : S) (a : A) :
    (tok = e.token →
      tcpListenerReact tok (.ok s a) (.Event e) = (.Value (s, a), false)
      ∧ tcpListenerReact tok (.wouldBlock : AcceptResult S A) (.Event e) = (.Continue, true)
      ∧ tcpListenerReact tok (.otherErr : AcceptResult S A) (.Event e) = (.Continue, false))
    ∧ (¬ tok = e.token →
      ∀ acc : AcceptResult S A, tcpListenerReact tok acc (.Event e) = (.Event e, false)) := by
  constructor
  · intro h
    refine ⟨?_, ?_, ?_⟩ <;> simp [tcpListenerReact, h]
  · intro h acc
    cases acc <;> simp [tcpListenerReact, h]

/-- C4 (witness): concrete accept outcomes on the listener's own token and on
a foreign token. -/
theorem tcp_listener_react_witness :
    tcpListenerReact 3 (.ok 1 2) (.Event ⟨3, true, false⟩) = (.Value (1, 2), false)
    ∧ tcpListenerReact 3 (.wouldBlock : AcceptResult Nat Nat) (.Event ⟨3, true, false⟩)
      = (.Continue, true)
    ∧ tcpListenerReact 3 (.otherErr : AcceptResult Nat Nat) (.Event ⟨3, true, false⟩)
      = (.Continue, false)
    ∧ tcpListenerReact 3 (.wouldBlock : AcceptResult Nat Nat) (.Event ⟨4, true, false⟩)
      = (.Event ⟨4, true, false⟩, false) := by
  have h1 := tcp_listener_react_spec 3 ⟨3, true, false⟩ 1 2
  have h2 := tcp_listener_react_spec 3 ⟨4, true, false⟩ 1 2
  exact ⟨(h1.1 rfl).1, (h1.1 rfl).2.1, (h1.1 rfl).2.2, h2.2 (by decide) _⟩

/-- C5 (counterexample): the claim says a Value input makes Stream::react
answer Continue; the code returns every non-Event input unchanged, so a
Value(()) input is answered with Value(()), not Continue. -/
theorem stream_react_value_counterexample :
    streamReact ⟨1, false, false⟩ (.Value ()) = (.Value (), ⟨1, false, false⟩)
    ∧ (streamReact ⟨1, false, false⟩ (.Value ())).1 ≠ .Continue := by
  exact ⟨by decide, by decide⟩

/-- C5 (amended): Stream::react on an Event with the stream's token ORs the
event's readable and writable flags into the latches and answers Value(());
an Event with a different token is returned unchanged; a Continue input is
answered Continue and a Value input is returned unchanged (every non-Event
input passes through). -/
theorem stream_react_spec (s : StreamState) (e : MioEvent) :
    (e.token = s.token →
      streamReact s (.Event e)
        = (.Value (), { s with is_readable := s.is_readable || e.readable,
                               is_writable := s.is_writable || e.writable }))
    ∧ (¬ e.token = s.token → streamReact s (.Event e) = (.Event e, s))
    ∧ streamReact s .Continue = (.Continue, s)
    ∧ streamReact s (.Value ()) = (.Value (), s) := by
  refine ⟨fun h => by simp [streamReact, h], fun h => by simp [streamReact, h], rfl, rfl⟩

/-- C5 (witness): a matching event latches readiness and answers Value; a
foreign event passes through unchanged. -/
theorem stream_react_witness :
    streamReact ⟨2, false, true⟩ (.Event ⟨2, true, false⟩) = (.Value (), ⟨2, true, true⟩)
    ∧ streamReact ⟨2, false, false⟩ (.Event ⟨9, true, false⟩)
      = (.Event ⟨9, true, false⟩, ⟨2, false, false⟩) := by
  have h1 := stream_react_spec ⟨2, false, true⟩ ⟨2, true, false⟩
  have h2 := stream_react_spec ⟨2, false, false⟩ ⟨9, true, false⟩
  exact ⟨h1.1 rfl, h2.2.1 (by decide)⟩

lemma insert_ok_cases (pv pv' : PreVec T) (v : T) (i : Nat)
    (h : pv.insert v = .ok (pv', i)) :
    ∃ pv1 nxt, pv.grow_if_required pv.next = .ok pv1
      ∧ pv1.inner.get? pv.next = some (.empty nxt)
      ∧ pv' = { pv1 with inner := pv1.inner.set pv.next (.occupied v),
                         length := pv1.length + 1, next := nxt }
      ∧ i = pv.next + pv1.offset := by
  cases hg : pv.grow_if_required pv.next with
  | error e =>
    simp only [PreVec.insert, hg] at h
    exact absurd h (by simp)
  | ok pv1 =>
    rcases hm : pv1.inner.get? pv.next with _ | entry
    · simp only [PreVec.insert, hg, hm] at h
      exact absurd h (by simp)
    · cases entry with
      | empty nxt =>
        simp only [PreVec.insert, hg, hm, Except.ok.injEq, Prod.mk.injEq] at h
        exact ⟨pv1, nxt, rfl, hm, h.1.symm, h.2.symm⟩
      | occupied u =>
        simp only [PreVec.insert, hg, hm] at h
        exact absurd h (by simp)

lemma remove_ok_some_cases (pv pv' : PreVec T) (i : Nat) (v : T)
    (h : pv.remove i = .ok (some v, pv')) :
    pv.offset ≤ i
    ∧ pv.inner.get? (i - pv.offset) = some (.occupied v)
    ∧ pv' = { pv with inner := pv.inner.set (i - pv.offset) (Entry.empty pv.next),
                      next := i - pv.offset, length := pv.length - 1 } := by
  by_cases hoff : i < pv.offset
  · simp only [PreVec.remove, if_pos hoff] at h
    exact absurd h (by simp)
  · rcases hm : pv.inner.get? (i - pv.offset) with _ | entry
    · simp only [PreVec.remove, if_neg hoff, hm] at h
      exact absurd h (by simp)
    · cases entry with
      | empty m =>
        simp only [PreVec.remove, if_neg hoff, hm] at h
        exact absurd h (by simp)
      | occupied u =>
        simp only [PreVec.remove, if_neg hoff, hm, Except.ok.injEq,
          Prod.mk.injEq, Option.some.injEq] at h
        refine ⟨Nat.le_of_not_lt hoff, ?_, h.2.symm⟩
        rw [h.1]

lemma remove_ok_none_cases (pv pv' : PreVec T) (i : Nat)
    (h : pv.remove i = .ok (none, pv')) : pv' = pv := by
  by_cases hoff : i < pv.offset
  · simp only [PreVec.remove, if_pos hoff] at h
    exact absurd h (by simp)
  · rcases hm : pv.inner.get? (i - pv.offset) with _ | entry
    · simp only [PreVec.remove, if_neg hoff, hm] at h
      exact absurd h (by simp)
    · cases entry with
      | empty m =>
        simp only [PreVec.remove, if_neg hoff, hm, Except.ok.injEq,
          Prod.mk.injEq] at h
        exact h.2.symm
      | occupied u =>
        simp only [PreVec.remove, if_neg hoff, hm] at h
        exact absurd h (by simp)

/-- The PreVec length field agrees with the number of occupied slots in every
reachable state. -/
lemma reachable_len_eq_count {T : Type} {pv : PreVec T} (h : PreVec.Reachable pv) :
    pv.length = countOccupied pv.inner := by
  induction h with
  | with_capacity cap => rfl
  | set_offset off hr ih => simpa [PreVec.set_offset] using ih
  | prevent_growth hr ih => simpa [PreVec.prevent_growth] using ih
  | enable_growth hr ih => simpa [PreVec.enable_growth] using ih
  | @insert pv pv' v i hr hins ih =>
    obtain ⟨pv1, nxt, hg, hm, hpv', hi⟩ := insert_ok_cases pv pv' v i hins
    obtain ⟨hcnt, hlen, hnext, hoff⟩ := grow_if_required_ok pv pv.next pv1 hg
    subst hpv'
    show pv1.length + 1 = countOccupied (pv1.inner.set pv.next (Entry.occupied v))
    rw [countOccupied_set_occupied pv1.inner pv.next nxt v hm, hcnt, hlen, ih]
  | @remove pv pv' r i hr hrem ih =>
    cases r with
    | none => rw [remove_ok_none_cases pv pv' i hrem]; exact ih
    | some u =>
      obtain ⟨hoff, hm, hpv'⟩ := remove_ok_some_cases pv pv' i u hrem
      subst hpv'
      have hcnt := countOccupied_set_empty pv.inner (i - pv.offset) pv.next u hm
      show pv.length - 1
        = countOccupied (pv.inner.set (i - pv.offset) (Entry.empty pv.next))
      omega
  | @modifyAt pv i f hr ih =>
    unfold PreVec.modifyAt
    by_cases hoff : i < pv.offset
    · rw [if_pos hoff]; exact ih
    · rw [if_neg hoff]
      cases hm : pv.inner.get? (i - pv.offset) with
      | none => exact ih
      | some entry =>
        cases entry with
        | empty m => exact ih
        | occupied u =>
          show pv.length
            = countOccupied (pv.inner.set (i - pv.offset) (Entry.occupied (f u)))
          rw [countOccupied_set_occ_occ pv.inner (i - pv.offset) u (f u) hm]
          exact ih
  | clear hr ih =>
    simp [PreVec.clear, countOccupied_mkEmpties]

/-- Inserting into a PreVec whose free-list head points at an existing empty
slot replaces exactly that slot and answers its position plus the offset. -/
lemma insert_into_free_slot (pvx : PreVec T) (w : T) (nxt : Nat)
    (hm : pvx.inner.get? pvx.next = some (.empty nxt)) :
    pvx.insert w = .ok ({ pvx with inner := pvx.inner.set pvx.next (.occupied w),
                                   length := pvx.length + 1, next := nxt },
                        pvx.next + pvx.offset) := by
  have hlt : pvx.next < pvx.inner.length := get?_some_lt _ _ _ hm
  have hgrow : pvx.grow_if_required pvx.next = .ok pvx := by
    unfold PreVec.grow_if_required
    rw [if_neg (Nat.not_le.mpr hlt)]
  simp only [PreVec.insert, hgrow, hm]

/-- C6: if remove at an in-range index answers some value, the very next
insert reuses exactly that index: the freed slot heads the free list. -/
theorem prevec_remove_insert_reuses_index (pv pv' : PreVec T) (i : Nat) (v w : T)
    (h : pv.remove i = .ok (some v, pv')) :
    ∃ pv2, pv'.insert w = .ok (pv2, i) := by
  obtain ⟨hoff, hm, hpv'⟩ := remove_ok_some_cases pv pv' i v h
  have hlt : i - pv.offset < pv.inner.length := get?_some_lt _ _ _ hm
  have hm' : pv'.inner.get? pv'.next = some (.empty pv.next) := by
    rw [hpv']
    exact get?_set_self pv.inner (i - pv.offset) (Entry.empty pv.next) hlt
  have hidx : pv'.next + pv'.offset = i := by
    rw [hpv']
    show i - pv.offset + pv.offset = i
    exact Nat.sub_add_cancel hoff
  exact ⟨_, hidx ▸ insert_into_free_slot pv' w pv.next hm'⟩

/-- C6 (witness): removing index 1 from a two-slot PreVec answers some 20,
and the next insert lands on index 1 again. -/
theorem prevec_remove_insert_witness :
    pvC6.remove 1 = .ok (some 20, pvC6r)
    ∧ ∃ pv2, pvC6r.insert 99 = .ok (pv2, 1) :=
  ⟨by decide, prevec_remove_insert_reuses_index pvC6 pvC6r 1 20 99 (by decide)⟩

/-- C7: when the target slot of insert (the free-list head) sits at or beyond
the capacity and outside the backing vector, insert fails with NoCapacity if
growth is prevented, and succeeds after doubling the capacity if growth is
enabled. -/
theorem prevec_growth_boundary (pv : PreVec T) (v : T)
    (h1 : pv.capacity ≤ pv.next) (h2 : pv.inner.length ≤ pv.next)
    (h3 : pv.next < pv.capacity * 2) :
    (pv.can_grow = false → pv.insert v = .error .noCapacity)
    ∧ (pv.can_grow = true →
        ∃ pv', pv.insert v = .ok (pv', pv.next + pv.offset)
          ∧ pv'.capacity = pv.capacity * 2) := by
  constructor
  · intro hg
    simp only [PreVec.insert]
    have hgrow : pv.grow_if_required pv.next = .error .noCapacity := by
      unfold PreVec.grow_if_required
      rw [if_pos h2, if_pos ⟨h1, hg⟩]
    rw [hgrow]
  · intro hg
    have hgrow : pv.grow_if_required pv.next
        = .ok { pv with capacity := pv.capacity * 2,
                        inner := pv.inner ++ mkEmpties T pv.inner.length
                          (pv.capacity * 2 - pv.inner.length) } := by
      unfold PreVec.grow_if_required
      rw [if_pos h2, if_neg (by simp [hg]), if_neg (by omega)]
    have hget : (pv.inner ++ mkEmpties T pv.inner.length
        (pv.capacity * 2 - pv.inner.length)).get? pv.next
        = some (.empty (pv.inner.length + (pv.next - pv.inner.length) + 1)) := by
      rw [get?_append_right' _ _ _ h2]
      exact mkEmpties_get? _ _ _ (by omega)
    refine ⟨⟨(pv.inner ++ mkEmpties T pv.inner.length
        (pv.capacity * 2 - pv.inner.length)).set pv.next (Entry.occupied v),
      pv.capacity * 2, pv.inner.length + (pv.next - pv.inner.length) + 1,
      pv.offset, pv.length + 1, pv.can_grow⟩, ?_, rfl⟩
    simp only [PreVec.insert, hgrow, hget]

/-- C7 (witness): a full one-slot PreVec rejects insert with NoCapacity when
growth is prevented, and with growth enabled the same insert lands on index 1
after the capacity doubles to 2. -/
theorem prevec_growth_boundary_witness :
    pvC7a.insert 5 = .error .noCapacity
    ∧ ∃ pv', pvC7b.insert 5 = .ok (pv', 1) ∧ pv'.capacity = 2 := by
  have ha := prevec_growth_boundary pvC7a 5 (by decide) (by decide) (by decide)
  have hb := prevec_growth_boundary pvC7b 5 (by decide) (by decide) (by decide)
  exact ⟨ha.1 rfl, hb.2 rfl⟩

/-- C9: in every reachable PreVec state, len equals the number of occupied
slots of the backing vector; a successful insert raises len by exactly one; a
remove answering some lowers it by exactly one; a remove answering none
leaves the whole state unchanged; and writing through the reference get_mut
hands out leaves len unchanged (get and get_mut themselves take the state by
shared reference and also leave it unchanged). -/
theorem prevec_len_invariant (T : Type) :
    (∀ pv : PreVec T, PreVec.Reachable pv → pv.len = countOccupied pv.inner)
    ∧ (∀ (pv pv' : PreVec T) (v : T) (i : Nat),
        pv.insert v = .ok (pv', i) → pv'.len = pv.len + 1)
    ∧ (∀ (pv pv' : PreVec T) (v : T) (i : Nat), PreVec.Reachable pv →
        pv.remove i = .ok (some v, pv') → pv.len = pv'.len + 1)
    ∧ (∀ (pv pv' : PreVec T) (i : Nat),
        pv.remove i = .ok (none, pv') → pv' = pv)
    ∧ (∀ (pv : PreVec T) (i : Nat) (f : T → T), (pv.modifyAt i f).len = pv.len) := by
  refine ⟨fun pv h => reachable_len_eq_count h, ?_, ?_, ?_, ?_⟩
  · intro pv pv' v i h
    obtain ⟨pv1, nxt, hg, hm, hpv', hi⟩ := insert_ok_cases pv pv' v i h
    obtain ⟨hcnt, hlen, hnext, hoff⟩ := grow_if_required_ok pv pv.next pv1 hg
    subst hpv'
    show pv1.length + 1 = pv.length + 1
    rw [hlen]
  · intro pv pv' v i hr h
    obtain ⟨hoff, hm, hpv'⟩ := remove_ok_some_cases pv pv' i v h
    have hinv := reachable_len_eq_count hr
    have hcnt := countOccupied_set_empty pv.inner (i - pv.offset) pv.next v hm
    subst hpv'
    show pv.length = pv.length - 1 + 1
    omega
  · intro pv pv' i h
    exact remove_ok_none_cases pv pv' i h
  · intro pv i f
    unfold PreVec.modifyAt
    by_cases hoff : i < pv.offset
    · rw [if_pos hoff]
    · rw [if_neg hoff]
      cases hm : pv.inner.get? (i - pv.offset) with
      | none => rfl
      | some entry =>
        cases entry with
        | empty m => rfl
        | occupied u => rfl

/-- C9 (witness): inserting 5 into an empty capacity-2 PreVec raises len to
1, which counts the occupied slots; removing it lowers len by one; a remove
of an already-free slot changes nothing; writing through get_mut keeps len. -/
theorem prevec_len_invariant_witness :
    pvW1.len = (PreVec.with_capacity Nat 2).len + 1
    ∧ pvW1.len = countOccupied pvW1.inner
    ∧ pvW1.len = pvW2.len + 1
    ∧ pvW1 = pvW1
    ∧ (pvW1.modifyAt 0 (fun x => x + 1)).len = pvW1.len := by
  have h := prevec_len_invariant Nat
  have hin : (PreVec.with_capacity Nat 2).insert 5 = Except.ok (pvW1, 0) := by decide
  have hrem : pvW1.remove 0 = Except.ok (some 5, pvW2) := by decide
  have hremn : pvW1.remove 1 = Except.ok (none, pvW1) := by decide
  have hreach : PreVec.Reachable pvW1 :=
    PreVec.Reachable.insert (PreVec.Reachable.with_capacity 2) hin
  exact ⟨h.2.1 (PreVec.with_capacity Nat 2) pvW1 5 0 hin,
    h.1 pvW1 hreach,
    h.2.2.1 pvW1 pvW2 5 0 hreach hrem,
    h.2.2.2.1 pvW1 pvW1 1 hremn,
    h.2.2.2.2 pvW1 0 (fun x => x + 1)⟩

lemma get_map' (f : α → β) (l : List α) (i : Nat) (h : i < l.length)
    (h2 : i < (l.map f).length) :
    (l.map f).get ⟨i, h2⟩ = f (l.get ⟨i, h⟩) := by
  induction l generalizing i with
  | nil => simp at h
  | cons x xs ih =>
    cases i with
    | zero => rfl
    | succ n => exact ih n (by simpa using h) (by simpa using h2)

lemma send_queue_connected (ch : SignalChannel T) (x : T) (hc : ch.connected = true) :
    ((SignalSender.send ch x).2).queue = ch.queue ++ [x] := by
  simp [SignalSender.send, hc]

lemma send_queue_disconnected (ch : SignalChannel T) (x : T) (hc : ch.connected = false) :
    ((SignalSender.send ch x).2).queue = ch.queue := by
  simp [SignalSender.send, hc]

/-- C8: publish sends a clone of the value to every subscriber exactly once —
subscriber i's new state is exactly the result of sending clone(v) on its own
channel, so a failed send to a disconnected subscriber leaves that queue
unchanged while every other (connected) subscriber still receives exactly one
copy equal to clone(v). -/
theorem broadcast_publish_fanout (T : Type) (clone : T → T)
    (subs : List (SignalChannel T)) (v : T) :
    (Broadcast.publish clone subs v).length = subs.length
    ∧ ∀ (i : Nat) (h : i < subs.length) (h2 : i < (Broadcast.publish clone subs v).length),
        (Broadcast.publish clone subs v).get ⟨i, h2⟩
          = (SignalSender.send (subs.get ⟨i, h⟩) (clone v)).2
        ∧ ((subs.get ⟨i, h⟩).connected = true →
            ((Broadcast.publish clone subs v).get ⟨i, h2⟩).queue
              = (subs.get ⟨i, h⟩).queue ++ [clone v])
        ∧ ((subs.get ⟨i, h⟩).connected = false →
            ((Broadcast.publish clone subs v).get ⟨i, h2⟩).queue
              = (subs.get ⟨i, h⟩).queue) := by
  refine ⟨by simp [Broadcast.publish], ?_⟩
  intro i h h2
  have hmap : (Broadcast.publish clone subs v).get ⟨i, h2⟩
      = (SignalSender.send (subs.get ⟨i, h⟩) (clone v)).2 :=
    get_map' _ subs i h h2
  refine ⟨hmap, ?_, ?_⟩
  · intro hc
    rw [hmap]
    exact send_queue_connected _ _ hc
  · intro hc
    rw [hmap]
    exact send_queue_disconnected _ _ hc

/-- C8 (witness): three subscribers, the middle one disconnected: both live
subscribers receive exactly one copy of 5, the disconnected one receives
nothing, and nothing is lost to the failure. -/
theorem broadcast_publish_witness :
    (Broadcast.publish id subsW 5).length = 3
    ∧ ((Broadcast.publish id subsW 5).get ⟨0, by decide⟩).queue = [5]
    ∧ ((Broadcast.publish id subsW 5).get ⟨1, by decide⟩).queue = []
    ∧ ((Broadcast.publish id subsW 5).get ⟨2, by decide⟩).queue = [1, 5] := by
  have h := broadcast_publish_fanout Nat id subsW 5
  refine ⟨h.1, ?_, ?_, ?_⟩
  · exact (h.2 0 (by decide) (by decide)).2.1 rfl
  · exact (h.2 1 (by decide) (by decide)).2.2 rfl
  · exact (h.2 2 (by decide) (by decide)).2.1 rfl

/-- C10: SignalSender::send sets the receiver registration readable before
the channel enqueue and regardless of its outcome: a send on a connected
channel succeeds and appends the value, a send on a disconnected channel
fails yet still leaves readiness set, and on such a channel a subsequent
try_recv finds no value. -/
theorem signal_send_readiness_first (T : Type) (ch : SignalChannel T) (v : T) :
    ((SignalSender.send ch v).2).ready = true
    ∧ (ch.connected = true →
        SignalSender.send ch v
          = (.ok (), { ch with ready := true, queue := ch.queue ++ [v] }))
    ∧ (ch.connected = false →
        SignalSender.send ch v = (.error .disconnected, { ch with ready := true }))
    ∧ (ch.connected = false → ch.queue = [] →
        SignalReceiver.try_recv (SignalSender.send ch v).2 = .error .Disconnected) := by
  refine ⟨?_, ?_, ?_, ?_⟩
  · cases hc : ch.connected <;> simp [SignalSender.send, hc]
  · intro hc
    simp [SignalSender.send, hc]
  · intro hc
    simp [SignalSender.send, hc]
  · intro hc hq
    simp [SignalSender.send, SignalReceiver.try_recv, hc, hq]

/-- C10 (witness): on a disconnected empty channel, send fails yet the
readiness flag is set, and try_recv finds no value. -/
theorem signal_send_readiness_witness :
    ((SignalSender.send chW 9).2).ready = true
    ∧ SignalSender.send chW 9 = (.error .disconnected, ⟨true, false, []⟩)
    ∧ SignalReceiver.try_recv (SignalSender.send chW 9).2 = .error .Disconnected := by
  have h := signal_send_readiness_first Nat chW 9
  exact ⟨h.1, h.2.2.1 rfl, h.2.2.2 rfl rfl⟩

end Sonr
